import Mathlib

/-!
Shallow embedding of the amortization engine `calculate_emi` from
`src/app02.py` of the EMICalculator repository, together with proofs of
the behavioural claims about it.

Modelling choices:
* Python real arithmetic is modelled over `ℚ` (exact arithmetic); the
  structural facts proved here (the forced-zero final balance, the
  per-record accounting identities, prefix sums) are the exact-arithmetic
  content of the spec's claims.
* Python's `/` raises `ZeroDivisionError` on a zero denominator; this is
  modelled by `pyDiv`, so `calculate_emi` returns `Except PyError _`.
* The function returns a 3-tuple `(0, 0, empty DataFrame)` on one path and
  a 4-tuple on every other returning path; the return type `EmiReturn`
  has one constructor per tuple shape.
* The schedule-building `for` loop mutates `balance` and rebinds
  `principal`; it is embedded as the structurally recursive `schedGo`,
  passing both explicitly, with the month counter and a remaining-month
  count.
-/

/-- Python's `ZeroDivisionError`, the only exception this code can raise. -/
inductive PyError
  | zeroDivision
deriving DecidableEq, Repr

/-- Python division, which raises on a zero denominator. -/
def pyDiv (a b : ℚ) : Except PyError ℚ :=
  if b = 0 then Except.error PyError.zeroDivision else Except.ok (a / b)

/-- One row appended to `schedule` in the loop of `calculate_emi`
(`Month`, `Starting Balance`, `EMI`, `Principal Paid`, `Interest Paid`,
`Ending Balance`). -/
structure Row where
  month : ℕ
  startingBalance : ℚ
  emi : ℚ
  principalPaid : ℚ
  interestPaid : ℚ
  endingBalance : ℚ
deriving DecidableEq, Repr

/-- The `schedule_df` DataFrame: the rows plus the three cumulative columns
added after the loop (`Cumulative Interest`, `Cumulative Principal`,
`Total Paid`). -/
structure DataFrame where
  rows : List Row
  cumInterest : List ℚ
  cumPrincipal : List ℚ
  totalPaid : List ℚ
deriving DecidableEq, Repr

/-- The two return shapes of `calculate_emi`: the early
`return 0, 0, pd.DataFrame()` (a 3-tuple) and the normal
`return monthly_emi, total_interest, total_payable, schedule_df`
(a 4-tuple). -/
inductive EmiReturn
  | three (monthly_emi total_interest : ℚ) (df : DataFrame)
  | four (monthly_emi total_interest total_payable : ℚ) (df : DataFrame)
deriving DecidableEq, Repr

/-- Whether a return value of `calculate_emi` is the normal 4-tuple shape
(`monthly_emi, total_interest, total_payable, schedule_df`). -/
def isFourTuple : EmiReturn → Bool
  | EmiReturn.three _ _ _ => false
  | EmiReturn.four _ _ _ _ => true

/-- `pandas.Series.cumsum` (running prefix sums), with explicit
accumulator. -/
def cumsumGo (acc : ℚ) : List ℚ → List ℚ
  | [] => []
  | x :: xs => (acc + x) :: cumsumGo (acc + x) xs

/-- `pandas.Series.cumsum` of a column. -/
def cumsum (xs : List ℚ) : List ℚ := cumsumGo 0 xs

/-- Building `schedule_df` from the schedule rows and adding the three
cumulative columns, as lines 65-70 of `src/app02.py` do
(`Total Paid` is the pointwise sum of the two cumulative columns). -/
def mkDataFrame (rows : List Row) : DataFrame :=
  { rows := rows
    cumInterest := cumsum (rows.map Row.interestPaid)
    cumPrincipal := cumsum (rows.map Row.principalPaid)
    totalPaid := List.zipWith (fun a b => a + b)
      (cumsum (rows.map Row.interestPaid))
      (cumsum (rows.map Row.principalPaid)) }

/-- The body of `for month in range(1, tenure_months + 1)` in
`calculate_emi` (lines 38-63 of `src/app02.py`): `balance` is the running
balance, `principal` the rebound `principal` variable (stored as
`Starting Balance`), `month` the loop counter and the last argument the
number of remaining iterations. -/
def schedGo (rate_annual monthly_emi : ℚ) (tenure_months : ℕ)
    (balance principal : ℚ) (month : ℕ) : ℕ → List Row
  | 0 => []
  | rem + 1 =>
    let interest_paid : ℚ :=
      if rate_annual = 0 then 0 else balance * (rate_annual / 100 / 12)
    let principal_paid : ℚ := monthly_emi - interest_paid
    let balance2 : ℚ := balance - principal_paid
    let principal_paid2 : ℚ :=
      if month = tenure_months then balance2 + principal_paid else principal_paid
    let balance3 : ℚ := if month = tenure_months then 0 else balance2
    { month := month, startingBalance := principal, emi := monthly_emi,
      principalPaid := principal_paid2, interestPaid := interest_paid,
      endingBalance := balance3 }
      :: schedGo rate_annual monthly_emi tenure_months balance3
          (balance3 + principal_paid2) (month + 1) rem

/-- The common tail of `calculate_emi` once `monthly_emi` and
`total_interest` are known: `total_payable = principal + total_interest`,
the schedule loop, and the DataFrame assembly (lines 32-72 of
`src/app02.py`). -/
def mainResult (principal rate_annual : ℚ) (tenure_months : ℕ)
    (monthly_emi total_interest : ℚ) : EmiReturn :=
  EmiReturn.four monthly_emi total_interest (principal + total_interest)
    (mkDataFrame
      (schedGo rate_annual monthly_emi tenure_months principal principal 1
        tenure_months))

/-- `calculate_emi(principal, rate_annual, tenure_months)` from
`src/app02.py`, lines 16-72.  The zero-rate branch divides
`principal / tenure_months` unguarded; the nonzero-rate branch returns the
3-tuple `0, 0, pd.DataFrame()` when `tenure_months == 0` and otherwise
computes the annuity formula. -/
def calculate_emi (principal rate_annual : ℚ) (tenure_months : ℕ) :
    Except PyError EmiReturn :=
  if rate_annual = 0 then
    match pyDiv principal (tenure_months : ℚ) with
    | Except.error e => Except.error e
    | Except.ok monthly_emi =>
      Except.ok (mainResult principal rate_annual tenure_months monthly_emi 0)
  else
    if tenure_months = 0 then
      Except.ok (EmiReturn.three 0 0 (mkDataFrame []))
    else
      let rate_monthly : ℚ := rate_annual / 100 / 12
      match pyDiv (principal * rate_monthly * (1 + rate_monthly) ^ tenure_months)
          ((1 + rate_monthly) ^ tenure_months - 1) with
      | Except.error e => Except.error e
      | Except.ok monthly_emi =>
        Except.ok (mainResult principal rate_annual tenure_months monthly_emi
          (monthly_emi * tenure_months - principal))

/-- The value `monthly_emi` takes on the successful paths of
`calculate_emi` (straight-line version of lines 18-29, valid when no
division raises). -/
def emiVal (principal rate_annual : ℚ) (tenure_months : ℕ) : ℚ :=
  if rate_annual = 0 then principal / tenure_months
  else
    principal * (rate_annual / 100 / 12) *
        (1 + rate_annual / 100 / 12) ^ tenure_months /
      ((1 + rate_annual / 100 / 12) ^ tenure_months - 1)

/-- The value `total_interest` takes on the successful paths of
`calculate_emi` (lines 21 and 30). -/
def tiVal (principal rate_annual : ℚ) (tenure_months : ℕ) : ℚ :=
  if rate_annual = 0 then 0
  else emiVal principal rate_annual tenure_months * tenure_months - principal

/-- The value `total_payable` takes (line 32). -/
def tpVal (principal rate_annual : ℚ) (tenure_months : ℕ) : ℚ :=
  principal + tiVal principal rate_annual tenure_months

/-- The schedule rows built on the successful paths of `calculate_emi`. -/
def rowsVal (principal rate_annual : ℚ) (tenure_months : ℕ) : List Row :=
  schedGo rate_annual (emiVal principal rate_annual tenure_months)
    tenure_months principal principal 1 tenure_months

/-- The `schedule_df` built on the successful paths of `calculate_emi`. -/
def dfVal (principal rate_annual : ℚ) (tenure_months : ℕ) : DataFrame :=
  mkDataFrame (rowsVal principal rate_annual tenure_months)

/-- Proof-layer description of the running balance: `bal ra emi P k` is the
value of the `balance` variable after `k` loop iterations, ignoring the
final-month override. -/
def bal (ra emi P : ℚ) : ℕ → ℚ
  | 0 => P
  | k + 1 =>
    bal ra emi P k -
      (emi - (if ra = 0 then 0 else bal ra emi P k * (ra / 100 / 12)))

/-- Interest paid in month `k ≥ 1` (proof-layer). -/
def ipAt (ra emi P : ℚ) (k : ℕ) : ℚ :=
  if ra = 0 then 0 else bal ra emi P (k - 1) * (ra / 100 / 12)

/-- Principal paid in month `k ≥ 1`, including the final-month override
(proof-layer). -/
def ppAt (ra emi P : ℚ) (n k : ℕ) : ℚ :=
  if k = n then bal ra emi P (n - 1) else emi - ipAt ra emi P k

/-- Ending balance recorded for month `k ≥ 1`, including the final-month
override (proof-layer). -/
def endAt (ra emi P : ℚ) (n k : ℕ) : ℚ :=
  if k = n then 0 else bal ra emi P k

/-- The full row recorded for month `k ≥ 1` (proof-layer): the
`Starting Balance` column stores the rebound `principal` variable, whose
value at month `k` is `bal (k - 2)` (with truncated subtraction). -/
def rowAt (ra emi P : ℚ) (n k : ℕ) : Row :=
  { month := k, startingBalance := bal ra emi P (k - 2), emi := emi,
    principalPaid := ppAt ra emi P n k, interestPaid := ipAt ra emi P k,
    endingBalance := endAt ra emi P n k }

theorem bal_succ (ra emi P : ℚ) (k : ℕ) :
    bal ra emi P (k + 1) = bal ra emi P k - (emi - ipAt ra emi P (k + 1)) := by
  simp [bal, ipAt]

theorem schedGo_eq (ra emi P : ℚ) (n : ℕ) :
    ∀ rem m, 1 ≤ m → m + rem ≤ n + 1 →
      schedGo ra emi n (bal ra emi P (m - 1)) (bal ra emi P (m - 2)) m rem
        = (List.range rem).map (fun i => rowAt ra emi P n (m + i)) := by
  intro rem
  induction rem with
  | zero => intro m _ _; simp [schedGo]
  | succ rem ih =>
    intro m hm hle
    obtain ⟨j, rfl⟩ : ∃ j, m = j + 1 := ⟨m - 1, by omega⟩
    have h1 : j + 1 - 1 = j := by omega
    have hip : (if ra = 0 then 0 else bal ra emi P j * (ra / 100 / 12))
        = ipAt ra emi P (j + 1) := by
      simp [ipAt]
    have hbal : bal ra emi P j - (emi - ipAt ra emi P (j + 1))
        = bal ra emi P (j + 1) := (bal_succ ra emi P j).symm
    by_cases hmn : j + 1 = n
    · have hrem : rem = 0 := by omega
      subst hrem
      subst hmn
      have hrange : List.range (0 + 1) = [0] := rfl
      simp only [schedGo, h1, hip, hrange, List.map_cons, List.map_nil,
        Nat.add_zero, List.cons.injEq, and_true, rowAt, ppAt, endAt,
        Row.mk.injEq, eq_self_iff_true, if_true, true_and]
      ring
    · simp only [schedGo, h1, hip, if_neg hmn, hbal]
      have hpv : bal ra emi P (j + 1) + (emi - ipAt ra emi P (j + 1))
          = bal ra emi P j := by
        rw [bal_succ]; ring
      rw [hpv]
      have htail := ih (j + 2) (by omega) (by omega)
      have h2 : j + 2 - 1 = j + 1 := by omega
      have h3 : j + 2 - 2 = j := by omega
      rw [h2, h3] at htail
      rw [htail]
      rw [List.range_succ_eq_map, List.map_cons, List.map_map]
      simp only [List.cons.injEq]
      refine ⟨?_, ?_⟩
      · simp only [rowAt, ppAt, endAt, if_neg hmn, Nat.add_zero]
      · apply List.map_congr_left
        intro i _
        simp only [Function.comp_apply]
        congr 1
        omega

theorem rowsVal_eq (p a : ℚ) (n : ℕ) :
    rowsVal p a n
      = (List.range n).map (fun i => rowAt a (emiVal p a n) p n (1 + i)) := by
  have h := schedGo_eq a (emiVal p a n) p n n 1 (le_refl 1) (by omega)
  simpa [rowsVal, bal] using h

theorem rowsVal_length (p a : ℚ) (n : ℕ) : (rowsVal p a n).length = n := by
  simp [rowsVal_eq]

theorem rowsVal_get (p a : ℚ) (n i : ℕ) (h : i < (rowsVal p a n).length) :
    (rowsVal p a n).get ⟨i, h⟩ = rowAt a (emiVal p a n) p n (1 + i) := by
  simp [rowsVal_eq]

theorem rowsVal_getLast (p a : ℚ) (n : ℕ) (hn : 1 ≤ n) :
    (rowsVal p a n).getLast? = some (rowAt a (emiVal p a n) p n n) := by
  obtain ⟨m, rfl⟩ : ∃ m, n = m + 1 := ⟨n - 1, by omega⟩
  rw [rowsVal_eq, List.range_succ, List.map_append, List.map_cons, List.map_nil,
    List.getLast?_concat]
  rw [Nat.add_comm 1 m]

theorem rate_monthly_ne_zero (a : ℚ) (ha : a ≠ 0) : a / 100 / 12 ≠ 0 := by
  have h : a / 100 / 12 = a / 1200 := by ring
  rw [h, div_ne_zero_iff]
  exact ⟨ha, by norm_num⟩

theorem bal_rate_zero (emi P : ℚ) (k : ℕ) : bal 0 emi P k = P - k * emi := by
  induction k with
  | zero => simp [bal]
  | succ k ih =>
    simp only [bal, ih, if_pos rfl]
    push_cast
    ring

theorem bal_closed (ra emi P : ℚ) (h : ra ≠ 0) (k : ℕ) :
    bal ra emi P k
      = P * (1 + ra / 100 / 12) ^ k
        - emi * ((1 + ra / 100 / 12) ^ k - 1) / (ra / 100 / 12) := by
  have hr : ra / 100 / 12 ≠ 0 := rate_monthly_ne_zero ra h
  induction k with
  | zero => simp [bal]
  | succ k ih =>
    simp only [bal, if_neg h, ih]
    field_simp
    ring

theorem one_lt_qpow (a : ℚ) (n : ℕ) (ha : 0 < a) (hn : 1 ≤ n) :
    1 < (1 + a / 100 / 12) ^ n := by
  have hr : 0 < a / 100 / 12 := by positivity
  exact one_lt_pow₀ (by linarith) (by omega)

theorem bal_annuity (p a : ℚ) (n : ℕ) (ha : 0 < a) (hn : 1 ≤ n) (k : ℕ) :
    bal a (emiVal p a n) p k
      = p * ((1 + a / 100 / 12) ^ n - (1 + a / 100 / 12) ^ k)
          / ((1 + a / 100 / 12) ^ n - 1) := by
  have hne : a ≠ 0 := ne_of_gt ha
  have hr : a / 100 / 12 ≠ 0 := rate_monthly_ne_zero a hne
  have h1 : (1 : ℚ) < (1 + a / 100 / 12) ^ n := one_lt_qpow a n ha hn
  rw [bal_closed a _ p hne k, emiVal, if_neg hne]
  set r : ℚ := a / 100 / 12 with hrdef
  have hD : (1 + r) ^ n - 1 ≠ 0 := sub_ne_zero.mpr (ne_of_gt h1)
  field_simp
  ring

theorem bal_annuity_n (p a : ℚ) (n : ℕ) (ha : 0 < a) (hn : 1 ≤ n) :
    bal a (emiVal p a n) p n = 0 := by
  rw [bal_annuity p a n ha hn n]
  simp

theorem bal_annuity_nonneg (p a : ℚ) (n k : ℕ) (hp : 0 ≤ p) (ha : 0 < a)
    (hn : 1 ≤ n) (hk : k ≤ n) : 0 ≤ bal a (emiVal p a n) p k := by
  rw [bal_annuity p a n ha hn k]
  have hq : (1 : ℚ) ≤ 1 + a / 100 / 12 := by
    have : 0 < a / 100 / 12 := by positivity
    linarith
  apply div_nonneg
  · apply mul_nonneg hp
    have := pow_le_pow_right₀ hq hk
    linarith
  · have := one_lt_qpow a n ha hn
    linarith

theorem bal_annuity_antitone (p a : ℚ) (n k : ℕ) (hp : 0 ≤ p) (ha : 0 < a)
    (hn : 1 ≤ n) : bal a (emiVal p a n) p (k + 1) ≤ bal a (emiVal p a n) p k := by
  rw [bal_annuity p a n ha hn k, bal_annuity p a n ha hn (k + 1)]
  have hq : (1 : ℚ) ≤ 1 + a / 100 / 12 := by
    have : 0 < a / 100 / 12 := by positivity
    linarith
  have hD : (0 : ℚ) < (1 + a / 100 / 12) ^ n - 1 := by
    have := one_lt_qpow a n ha hn
    linarith
  have hpow := pow_le_pow_right₀ hq (Nat.le_succ k)
  have hnum : p * ((1 + a / 100 / 12) ^ n - (1 + a / 100 / 12) ^ (k + 1))
      ≤ p * ((1 + a / 100 / 12) ^ n - (1 + a / 100 / 12) ^ k) := by
    apply mul_le_mul_of_nonneg_left _ hp
    simp only [Nat.succ_eq_add_one] at hpow
    linarith
  rw [div_le_div_iff₀ hD hD]
  exact mul_le_mul_of_nonneg_right hnum (le_of_lt hD)

theorem bal_annuity_final (p a : ℚ) (n : ℕ) (ha : 0 < a) (hn : 1 ≤ n) :
    bal a (emiVal p a n) p (n - 1) * (1 + a / 100 / 12)
      = emiVal p a n := by
  obtain ⟨m, rfl⟩ : ∃ m, n = m + 1 := ⟨n - 1, by omega⟩
  have hne : a ≠ 0 := ne_of_gt ha
  have hr : a / 100 / 12 ≠ 0 := rate_monthly_ne_zero a hne
  have h1 : (1 : ℚ) < (1 + a / 100 / 12) ^ (m + 1) := one_lt_qpow a (m + 1) ha hn
  rw [bal_annuity p a (m + 1) ha hn, emiVal, if_neg hne]
  have hm1 : m + 1 - 1 = m := by omega
  rw [hm1]
  set r : ℚ := a / 100 / 12 with hrdef
  have hD : (1 + r) ^ (m + 1) - 1 ≠ 0 := sub_ne_zero.mpr (ne_of_gt h1)
  field_simp
  ring

theorem bal_zero_emiVal (p : ℚ) (n k : ℕ) :
    bal 0 (emiVal p 0 n) p k = p - k * (p / n) := by
  rw [bal_rate_zero, emiVal, if_pos rfl]

theorem bal_zero_n (p : ℚ) (n : ℕ) (hn : 1 ≤ n) :
    bal 0 (emiVal p 0 n) p n = 0 := by
  rw [bal_zero_emiVal]
  have hne : (n : ℚ) ≠ 0 := Nat.cast_ne_zero.mpr (by omega)
  field_simp

theorem bal_zero_final (p : ℚ) (n : ℕ) (hn : 1 ≤ n) :
    bal 0 (emiVal p 0 n) p (n - 1) = emiVal p 0 n := by
  obtain ⟨m, rfl⟩ : ∃ m, n = m + 1 := ⟨n - 1, by omega⟩
  have hm1 : m + 1 - 1 = m := by omega
  rw [hm1, bal_zero_emiVal, emiVal, if_pos rfl]
  have hne : ((m : ℚ) + 1) ≠ 0 := by positivity
  push_cast
  field_simp
  ring

theorem bal_zero_nonneg (p : ℚ) (n k : ℕ) (hp : 0 ≤ p) (hn : 1 ≤ n)
    (hk : k ≤ n) : 0 ≤ bal 0 (emiVal p 0 n) p k := by
  rw [bal_zero_emiVal]
  have h0 : (0 : ℚ) < n := by
    have : (1 : ℚ) ≤ n := by exact_mod_cast hn
    linarith
  have hkc : (k : ℚ) ≤ n := by exact_mod_cast hk
  have hdiv : 0 ≤ p / n := div_nonneg hp (le_of_lt h0)
  have h1 : (k : ℚ) * (p / n) ≤ (n : ℚ) * (p / n) :=
    mul_le_mul_of_nonneg_right hkc hdiv
  have h2 : (n : ℚ) * (p / n) = p := by field_simp
  linarith

theorem bal_zero_antitone (p : ℚ) (n k : ℕ) (hp : 0 ≤ p) (hn : 1 ≤ n) :
    bal 0 (emiVal p 0 n) p (k + 1) ≤ bal 0 (emiVal p 0 n) p k := by
  rw [bal_zero_emiVal, bal_zero_emiVal]
  have h0 : (0 : ℚ) < n := by
    have : (1 : ℚ) ≤ n := by exact_mod_cast hn
    linarith
  have hdiv : 0 ≤ p / n := div_nonneg hp (le_of_lt h0)
  push_cast
  nlinarith

theorem balE_n (p a : ℚ) (n : ℕ) (ha : 0 ≤ a) (hn : 1 ≤ n) :
    bal a (emiVal p a n) p n = 0 := by
  rcases eq_or_lt_of_le ha with h | h
  · rw [← h]
    exact bal_zero_n p n hn
  · exact bal_annuity_n p a n h hn

theorem balE_nonneg (p a : ℚ) (n k : ℕ) (hp : 0 ≤ p) (ha : 0 ≤ a)
    (hn : 1 ≤ n) (hk : k ≤ n) : 0 ≤ bal a (emiVal p a n) p k := by
  rcases eq_or_lt_of_le ha with h | h
  · rw [← h]
    exact bal_zero_nonneg p n k hp hn hk
  · exact bal_annuity_nonneg p a n k hp h hn hk

theorem balE_antitone (p a : ℚ) (n k : ℕ) (hp : 0 ≤ p) (ha : 0 ≤ a)
    (hn : 1 ≤ n) :
    bal a (emiVal p a n) p (k + 1) ≤ bal a (emiVal p a n) p k := by
  rcases eq_or_lt_of_le ha with h | h
  · rw [← h]
    exact bal_zero_antitone p n k hp hn
  · exact bal_annuity_antitone p a n k hp h hn

theorem balE_final_sum (p a : ℚ) (n : ℕ) (ha : 0 ≤ a) (hn : 1 ≤ n) :
    bal a (emiVal p a n) p (n - 1) + ipAt a (emiVal p a n) p n
      = emiVal p a n := by
  rcases eq_or_lt_of_le ha with h | h
  · rw [← h]
    rw [ipAt, if_pos rfl, add_zero]
    exact bal_zero_final p n hn
  · have hne : a ≠ 0 := ne_of_gt h
    rw [ipAt, if_neg hne]
    have hfin := bal_annuity_final p a n h hn
    nlinarith [hfin]

theorem ppAt_add_ipAt (p a : ℚ) (n k : ℕ) (ha : 0 ≤ a) (hn : 1 ≤ n)
    (hk2 : k ≤ n) :
    ppAt a (emiVal p a n) p n k + ipAt a (emiVal p a n) p k
      = emiVal p a n := by
  by_cases hkn : k = n
  · subst hkn
    rw [ppAt, if_pos rfl]
    exact balE_final_sum p a k ha hn
  · rw [ppAt, if_neg hkn]
    ring

theorem ppAt_step (a emi p : ℚ) (n j : ℕ) (hj : j + 1 ≠ n) :
    ppAt a emi p n (j + 1) = bal a emi p j - bal a emi p (j + 1) := by
  rw [ppAt, if_neg hj, bal_succ]
  ring

theorem endAt_step (p a : ℚ) (n j : ℕ) (_hj : j + 1 ≤ n) :
    endAt a (emiVal p a n) p n (j + 1)
      = bal a (emiVal p a n) p j - ppAt a (emiVal p a n) p n (j + 1) := by
  by_cases hkn : j + 1 = n
  · rw [endAt, if_pos hkn, ppAt, if_pos hkn, ← hkn]
    have hj1 : j + 1 - 1 = j := by omega
    rw [hj1]
    ring
  · rw [endAt, if_neg hkn, ppAt_step a _ p n j hkn]
    ring

theorem ppAt_nonneg (p a : ℚ) (n k : ℕ) (hp : 0 ≤ p) (ha : 0 ≤ a)
    (hn : 1 ≤ n) (hk1 : 1 ≤ k) (hk2 : k ≤ n) :
    0 ≤ ppAt a (emiVal p a n) p n k := by
  by_cases hkn : k = n
  · subst hkn
    rw [ppAt, if_pos rfl]
    exact balE_nonneg p a k (k - 1) hp ha hn (by omega)
  · obtain ⟨j, rfl⟩ : ∃ j, k = j + 1 := ⟨k - 1, by omega⟩
    rw [ppAt_step a _ p n j hkn]
    have := balE_antitone p a n j hp ha hn
    linarith

theorem ipAt_nonneg (p a : ℚ) (n k : ℕ) (hp : 0 ≤ p) (ha : 0 ≤ a)
    (hn : 1 ≤ n) (hk2 : k ≤ n) :
    0 ≤ ipAt a (emiVal p a n) p k := by
  rw [ipAt]
  by_cases h0 : a = 0
  · rw [if_pos h0]
  · rw [if_neg h0]
    have hb := balE_nonneg p a n (k - 1) hp ha hn (by omega)
    have hr : 0 ≤ a / 100 / 12 := by positivity
    exact mul_nonneg hb hr

theorem sum_ip_below (p a : ℚ) (n : ℕ) (m : ℕ) :
    ((List.range m).map (fun i => ipAt a (emiVal p a n) p (1 + i))).sum
      = bal a (emiVal p a n) p m - p + m * emiVal p a n := by
  induction m with
  | zero => simp [bal]
  | succ m ih =>
    rw [List.sum_range_succ, ih]
    have h1 : 1 + m = m + 1 := by omega
    rw [h1, ipAt]
    have hb := bal_succ a (emiVal p a n) p m
    rw [ipAt] at hb
    simp only [Nat.add_sub_cancel] at hb ⊢
    push_cast
    linarith [hb]

theorem sum_ip_total (p a : ℚ) (n : ℕ) (ha : 0 ≤ a) (hn : 1 ≤ n) :
    ((List.range n).map (fun i => ipAt a (emiVal p a n) p (1 + i))).sum
      = n * emiVal p a n - p := by
  rw [sum_ip_below, balE_n p a n ha hn]
  ring

theorem sum_pp_below (p a : ℚ) (n : ℕ) (m : ℕ) (hm : m < n) :
    ((List.range m).map (fun i => ppAt a (emiVal p a n) p n (1 + i))).sum
      = p - bal a (emiVal p a n) p m := by
  induction m with
  | zero => simp [bal]
  | succ m ih =>
    rw [List.sum_range_succ, ih (by omega)]
    have h1 : 1 + m = m + 1 := by omega
    rw [h1, ppAt_step a _ p n m (by omega)]
    ring

theorem sum_pp_total (p a : ℚ) (n : ℕ) (hn : 1 ≤ n) :
    ((List.range n).map (fun i => ppAt a (emiVal p a n) p n (1 + i))).sum
      = p := by
  obtain ⟨m, rfl⟩ : ∃ m, n = m + 1 := ⟨n - 1, by omega⟩
  rw [List.sum_range_succ, sum_pp_below p a (m + 1) m (by omega)]
  have h1 : 1 + m = m + 1 := by omega
  rw [h1, ppAt, if_pos rfl]
  have h2 : m + 1 - 1 = m := by omega
  rw [h2]
  ring

theorem cumsumGo_length (xs : List ℚ) : ∀ acc, (cumsumGo acc xs).length = xs.length := by
  induction xs with
  | nil => intro acc; rfl
  | cons x xs ih => intro acc; simp [cumsumGo, ih]

theorem cumsum_length (xs : List ℚ) : (cumsum xs).length = xs.length :=
  cumsumGo_length xs 0

theorem cumsumGo_get (xs : List ℚ) :
    ∀ acc i (h : i < (cumsumGo acc xs).length),
      (cumsumGo acc xs).get ⟨i, h⟩ = acc + (xs.take (i + 1)).sum := by
  induction xs with
  | nil => intro acc i h; simp [cumsumGo] at h
  | cons x xs ih =>
    intro acc i h
    cases i with
    | zero => simp [cumsumGo]
    | succ i =>
      have h2 : i < (cumsumGo (acc + x) xs).length := by
        simpa [cumsumGo] using h
      have := ih (acc + x) i h2
      simp only [cumsumGo, List.get_cons_succ, List.take_succ_cons, List.sum_cons]
      rw [this]
      ring

theorem cumsum_get (xs : List ℚ) (i : ℕ) (h : i < (cumsum xs).length) :
    (cumsum xs).get ⟨i, h⟩ = (xs.take (i + 1)).sum := by
  have h2 : i < (cumsumGo 0 xs).length := h
  have heq := cumsumGo_get xs 0 i h2
  rw [zero_add] at heq
  exact heq

theorem cumsumGo_getLast (xs : List ℚ) :
    ∀ acc x, (cumsumGo acc (x :: xs)).getLast? = some (acc + (x :: xs).sum) := by
  induction xs with
  | nil => intro acc x; simp [cumsumGo]
  | cons y ys ih =>
    intro acc x
    have step : cumsumGo acc (x :: y :: ys)
        = (acc + x) :: (acc + x + y) :: cumsumGo (acc + x + y) ys := rfl
    have step2 : cumsumGo (acc + x) (y :: ys)
        = (acc + x + y) :: cumsumGo (acc + x + y) ys := rfl
    rw [step, List.getLast?_cons_cons, ← step2, ih (acc + x) y]
    simp only [List.sum_cons]
    congr 1
    ring

theorem cumsum_getLast (x : ℚ) (xs : List ℚ) :
    (cumsum (x :: xs)).getLast? = some ((x :: xs).sum) := by
  have heq := cumsumGo_getLast xs 0 x
  rw [zero_add] at heq
  exact heq

theorem take_succ_sum (xs : List ℚ) :
    ∀ i (h : i < xs.length),
      (xs.take (i + 1)).sum = (xs.take i).sum + xs.get ⟨i, h⟩ := by
  induction xs with
  | nil => intro i h; simp at h
  | cons x xs ih =>
    intro i h
    cases i with
    | zero => simp
    | succ i =>
      have h2 : i < xs.length := by simpa using h
      simp only [List.take_succ_cons, List.sum_cons, List.get_cons_succ]
      rw [ih i h2]
      ring

theorem zipWith_add_cumsumGo (xs : List ℚ) :
    ∀ (ys : List ℚ) (a b : ℚ), xs.length = ys.length →
      List.zipWith (fun u v => u + v) (cumsumGo a xs) (cumsumGo b ys)
        = cumsumGo (a + b) (List.zipWith (fun u v => u + v) xs ys) := by
  induction xs with
  | nil =>
    intro ys a b hlen
    have : ys = [] := by
      cases ys with
      | nil => rfl
      | cons y ys => simp at hlen
    subst this
    rfl
  | cons x xs ih =>
    intro ys a b hlen
    cases ys with
    | nil => simp at hlen
    | cons y ys =>
      have hlen2 : xs.length = ys.length := by simpa using hlen
      simp only [cumsumGo, List.zipWith_cons_cons]
      rw [ih ys (a + x) (b + y) hlen2]
      have hacc : a + x + (b + y) = a + b + (x + y) := by ring
      rw [hacc]

theorem zipWith_add_map (f g : Row → ℚ) (l : List Row) :
    List.zipWith (fun u v => u + v) (l.map f) (l.map g)
      = l.map (fun row => f row + g row) := by
  induction l with
  | nil => rfl
  | cons x xs ih => simp [ih]

theorem dfVal_totalPaid (p a : ℚ) (n : ℕ) :
    (dfVal p a n).totalPaid
      = cumsum ((rowsVal p a n).map
          (fun row => Row.interestPaid row + Row.principalPaid row)) := by
  show List.zipWith (fun u v => u + v)
      (cumsumGo 0 ((rowsVal p a n).map Row.interestPaid))
      (cumsumGo 0 ((rowsVal p a n).map Row.principalPaid))
    = cumsumGo 0 ((rowsVal p a n).map
        (fun row => Row.interestPaid row + Row.principalPaid row))
  rw [zipWith_add_cumsumGo _ _ 0 0 (by simp), zipWith_add_map]
  norm_num

theorem calculate_emi_ok (p a : ℚ) (n : ℕ) (ha : 0 ≤ a) (hn : 1 ≤ n) :
    calculate_emi p a n
      = Except.ok (EmiReturn.four (emiVal p a n) (tiVal p a n) (tpVal p a n)
          (dfVal p a n)) := by
  have hn0 : n ≠ 0 := by omega
  have hnQ : (n : ℚ) ≠ 0 := Nat.cast_ne_zero.mpr hn0
  by_cases h0 : a = 0
  · subst h0
    unfold calculate_emi pyDiv mainResult emiVal tiVal tpVal dfVal rowsVal
    simp [hnQ, tiVal, emiVal]
  · have h : 0 < a := lt_of_le_of_ne ha (Ne.symm h0)
    have hD : (1 + a / 100 / 12) ^ n - 1 ≠ 0 :=
      sub_ne_zero.mpr (ne_of_gt (one_lt_qpow a n h hn))
    unfold calculate_emi pyDiv mainResult emiVal tiVal tpVal dfVal rowsVal
    simp [h0, hn0, hD, tiVal, emiVal]

theorem tiVal_eq (p a : ℚ) (n : ℕ) (hn : 1 ≤ n) :
    tiVal p a n = n * emiVal p a n - p := by
  have hnQ : (n : ℚ) ≠ 0 := Nat.cast_ne_zero.mpr (by omega)
  by_cases h0 : a = 0
  · rw [tiVal, if_pos h0, emiVal, if_pos h0]
    field_simp
  · rw [tiVal, if_neg h0]
    ring

theorem rowsVal_get_succ (p a : ℚ) (n i : ℕ) (h : i < (rowsVal p a n).length) :
    (rowsVal p a n).get ⟨i, h⟩ = rowAt a (emiVal p a n) p n (i + 1) := by
  rw [rowsVal_get]
  congr 1
  omega

theorem cumsum_getLast_of_ne_nil (xs : List ℚ) (h : xs ≠ []) :
    (cumsum xs).getLast? = some xs.sum := by
  cases xs with
  | nil => exact absurd rfl h
  | cons x t => exact cumsum_getLast x t

theorem rowsVal_map_ip (p a : ℚ) (n : ℕ) :
    (rowsVal p a n).map Row.interestPaid
      = (List.range n).map (fun i => ipAt a (emiVal p a n) p (1 + i)) := by
  rw [rowsVal_eq, List.map_map]
  rfl

theorem rowsVal_map_pp (p a : ℚ) (n : ℕ) :
    (rowsVal p a n).map Row.principalPaid
      = (List.range n).map (fun i => ppAt a (emiVal p a n) p n (1 + i)) := by
  rw [rowsVal_eq, List.map_map]
  rfl

theorem dfVal_ci_length (p a : ℚ) (n : ℕ) :
    (dfVal p a n).cumInterest.length = n := by
  show (cumsum ((rowsVal p a n).map Row.interestPaid)).length = n
  rw [cumsum_length, List.length_map, rowsVal_length]

theorem dfVal_cp_length (p a : ℚ) (n : ℕ) :
    (dfVal p a n).cumPrincipal.length = n := by
  show (cumsum ((rowsVal p a n).map Row.principalPaid)).length = n
  rw [cumsum_length, List.length_map, rowsVal_length]

theorem dfVal_tp_length (p a : ℚ) (n : ℕ) :
    (dfVal p a n).totalPaid.length = n := by
  rw [dfVal_totalPaid, cumsum_length, List.length_map, rowsVal_length]

theorem dfVal_ci_get (p a : ℚ) (n i : ℕ)
    (h : i < (dfVal p a n).cumInterest.length) :
    (dfVal p a n).cumInterest.get ⟨i, h⟩
      = (((rowsVal p a n).map Row.interestPaid).take (i + 1)).sum :=
  cumsum_get _ i h

theorem dfVal_cp_get (p a : ℚ) (n i : ℕ)
    (h : i < (dfVal p a n).cumPrincipal.length) :
    (dfVal p a n).cumPrincipal.get ⟨i, h⟩
      = (((rowsVal p a n).map Row.principalPaid).take (i + 1)).sum :=
  cumsum_get _ i h

theorem dfVal_tp_get (p a : ℚ) (n i : ℕ)
    (h : i < (dfVal p a n).totalPaid.length) :
    (dfVal p a n).totalPaid.get ⟨i, h⟩
      = (((rowsVal p a n).map
          (fun row => Row.interestPaid row + Row.principalPaid row)).take
            (i + 1)).sum := by
  have heq := List.get_of_eq (dfVal_totalPaid p a n) ⟨i, h⟩
  rw [heq, cumsum_get]

/-- C1: for every valid input (principal > 0, annualRatePercent ≥ 0,
termPeriods ≥ 1), `calculate_emi` succeeds with the 4-tuple result and the
last record of the schedule has `endingBalance` equal to exactly 0 (exact
equality in the model's exact arithmetic — the code forces `balance = 0`
on the final iteration). -/
theorem claim_c1_final_balance_zero (p a : ℚ) (n : ℕ)
    (_hp : 0 < p) (ha : 0 ≤ a) (hn : 1 ≤ n) :
    calculate_emi p a n
      = Except.ok (EmiReturn.four (emiVal p a n) (tiVal p a n) (tpVal p a n)
          (dfVal p a n))
      ∧ ((dfVal p a n).rows.getLast?).map Row.endingBalance = some 0 := by
  refine ⟨calculate_emi_ok p a n ha hn, ?_⟩
  have hrows : (dfVal p a n).rows = rowsVal p a n := rfl
  rw [hrows, rowsVal_getLast p a n hn]
  simp [rowAt, endAt]

theorem claim_c1_witness :
    (0 : ℚ) < 500000 ∧ (0 : ℚ) ≤ 8 ∧ 1 ≤ 120 ∧
      (calculate_emi 500000 8 120
          = Except.ok (EmiReturn.four (emiVal 500000 8 120) (tiVal 500000 8 120)
              (tpVal 500000 8 120) (dfVal 500000 8 120))
        ∧ ((dfVal 500000 8 120).rows.getLast?).map Row.endingBalance = some 0) :=
  ⟨by norm_num, by norm_num, by norm_num,
    claim_c1_final_balance_zero 500000 8 120 (by norm_num) (by norm_num)
      (by norm_num)⟩

/-- C2: the claim says `calculate_emi` validates its inputs before any
computation and signals typed errors (`InvalidTermError` for
`termPeriods ≤ 0`, etc.).  The code contains no such validation: this
theorem records the actual behaviour at the claim's own example input
`termPeriods = 0` (with a nonzero rate): the function silently returns the
degenerate 3-tuple `(0, 0, empty DataFrame)` and raises no error at all. -/
theorem claim_c2_no_typed_errors :
    calculate_emi 100000 5 0
      = Except.ok (EmiReturn.three 0 0 (mkDataFrame [])) := by
  rw [calculate_emi, if_neg (by norm_num : (5 : ℚ) ≠ 0), if_pos rfl]

/-- C3: for annualRatePercent > 0 and termPeriods = n ≥ 1, the returned
periodic payment is exactly `principal * r * (1 + r)^n / ((1 + r)^n - 1)`
with `r = (annualRatePercent / 100) / 12`. -/
theorem claim_c3_annuity_formula (p a : ℚ) (n : ℕ) (ha : 0 < a)
    (hn : 1 ≤ n) :
    calculate_emi p a n
      = Except.ok (EmiReturn.four
          (p * (a / 100 / 12) * (1 + a / 100 / 12) ^ n
            / ((1 + a / 100 / 12) ^ n - 1))
          (tiVal p a n) (tpVal p a n) (dfVal p a n)) := by
  rw [calculate_emi_ok p a n (le_of_lt ha) hn]
  unfold emiVal
  rw [if_neg (ne_of_gt ha)]

theorem claim_c3_witness :
    (0 : ℚ) < 8 ∧ 1 ≤ 120 ∧
      calculate_emi 500000 8 120
        = Except.ok (EmiReturn.four
            ((500000 : ℚ) * (8 / 100 / 12) * (1 + 8 / 100 / 12) ^ 120
              / ((1 + 8 / 100 / 12) ^ 120 - 1))
            (tiVal 500000 8 120) (tpVal 500000 8 120) (dfVal 500000 8 120)) :=
  ⟨by norm_num, by norm_num,
    claim_c3_annuity_formula 500000 8 120 (by norm_num) (by norm_num)⟩

/-- C9: with rate_annual = 0 and tenure_months = 0 the division
`principal / tenure_months` is reached unguarded (the `tenure_months == 0`
guard sits only in the nonzero-rate branch), so the call raises
`ZeroDivisionError`. -/
theorem claim_c9_zero_division (p : ℚ) :
    calculate_emi p 0 0 = Except.error PyError.zeroDivision := by
  rw [calculate_emi, if_pos rfl]
  have h : pyDiv p ((0 : ℕ) : ℚ) = Except.error PyError.zeroDivision := by
    rw [pyDiv, if_pos (by norm_num)]
  rw [h]

/-- C10: with rate_annual ≠ 0 and tenure_months = 0, `calculate_emi`
returns the 3-tuple `(0, 0, empty DataFrame)`, while every other returning
path (tenure_months ≥ 1, whenever the call succeeds) yields the 4-tuple
shape, so the total-payable output is absent exactly at this edge. -/
theorem claim_c10_three_tuple (p a p2 a2 : ℚ) (n : ℕ) (x : EmiReturn)
    (ha : a ≠ 0) (hn : 1 ≤ n)
    (hx : calculate_emi p2 a2 n = Except.ok x) :
    calculate_emi p a 0 = Except.ok (EmiReturn.three 0 0 (mkDataFrame []))
      ∧ isFourTuple x = true := by
  constructor
  · rw [calculate_emi, if_neg ha, if_pos rfl]
  · rw [calculate_emi] at hx
    by_cases h0 : a2 = 0
    · rw [if_pos h0] at hx
      split at hx
      · exact absurd hx (by simp)
      · have hmain := (Except.ok.injEq _ _).mp hx
        rw [← hmain, mainResult]
        rfl
    · rw [if_neg h0, if_neg (by omega : n ≠ 0)] at hx
      have hx2 : (match pyDiv (p2 * (a2 / 100 / 12) * (1 + a2 / 100 / 12) ^ n)
            ((1 + a2 / 100 / 12) ^ n - 1) with
          | Except.error e => Except.error e
          | Except.ok monthly_emi =>
            Except.ok (mainResult p2 a2 n monthly_emi
              (monthly_emi * n - p2))) = Except.ok x := hx
      split at hx2
      · exact absurd hx2 (by simp)
      · have hmain := (Except.ok.injEq _ _).mp hx2
        rw [← hmain, mainResult]
        rfl

/-- C4: with annualRatePercent = 0 and termPeriods = n ≥ 1, the payment is
exactly `principal / termPeriods`, every record's interestPaid is 0, and
every record's principalPaid equals the payment. -/
theorem claim_c4_zero_rate (p : ℚ) (n i : ℕ) (hn : 1 ≤ n)
    (hi : i < (rowsVal p 0 n).length) :
    calculate_emi p 0 n
      = Except.ok (EmiReturn.four (emiVal p 0 n) (tiVal p 0 n) (tpVal p 0 n)
          (dfVal p 0 n))
      ∧ emiVal p 0 n = p / n
      ∧ ((rowsVal p 0 n).get ⟨i, hi⟩).interestPaid = 0
      ∧ ((rowsVal p 0 n).get ⟨i, hi⟩).principalPaid = emiVal p 0 n := by
  refine ⟨calculate_emi_ok p 0 n le_rfl hn, ?_, ?_, ?_⟩
  · unfold emiVal
    rw [if_pos rfl]
  · rw [rowsVal_get_succ]
    simp [rowAt, ipAt]
  · rw [rowsVal_get_succ]
    simp only [rowAt]
    by_cases hin : i + 1 = n
    · rw [ppAt, if_pos hin]
      exact bal_zero_final p n hn
    · rw [ppAt, if_neg hin, ipAt, if_pos rfl]
      ring

theorem claim_c4_witness :
    1 ≤ 24 ∧ 0 < (rowsVal 120000 0 24).length ∧
      (calculate_emi 120000 0 24
          = Except.ok (EmiReturn.four (emiVal 120000 0 24) (tiVal 120000 0 24)
              (tpVal 120000 0 24) (dfVal 120000 0 24))
        ∧ emiVal 120000 0 24 = 120000 / 24
        ∧ ((rowsVal 120000 0 24).get
            ⟨0, by rw [rowsVal_length]; norm_num⟩).interestPaid = 0
        ∧ ((rowsVal 120000 0 24).get
            ⟨0, by rw [rowsVal_length]; norm_num⟩).principalPaid
            = emiVal 120000 0 24) :=
  ⟨by norm_num, by rw [rowsVal_length]; norm_num,
    claim_c4_zero_rate 120000 24 0 (by norm_num)
      (by rw [rowsVal_length]; norm_num)⟩

/-- C5: for every record of the schedule, principalPaid + interestPaid
equals the payment (proved as exact equality in exact arithmetic, which is
within any tolerance) and endingBalance equals the previous record's
endingBalance (the principal for the first record) minus principalPaid,
including for the corrected final record. -/
theorem claim_c5_record_invariants (p a : ℚ) (n i : ℕ)
    (_hp : 0 < p) (ha : 0 ≤ a) (hn : 1 ≤ n)
    (hi : i < (rowsVal p a n).length) :
    calculate_emi p a n
      = Except.ok (EmiReturn.four (emiVal p a n) (tiVal p a n) (tpVal p a n)
          (dfVal p a n))
      ∧ ((rowsVal p a n).get ⟨i, hi⟩).principalPaid
          + ((rowsVal p a n).get ⟨i, hi⟩).interestPaid = emiVal p a n
      ∧ ((rowsVal p a n).get ⟨i, hi⟩).endingBalance
          = (if i = 0 then p
             else ((rowsVal p a n).get
                ⟨i - 1, lt_of_le_of_lt (Nat.pred_le i) hi⟩).endingBalance)
            - ((rowsVal p a n).get ⟨i, hi⟩).principalPaid := by
  have hin : i < n := by
    have := rowsVal_length p a n
    omega
  refine ⟨calculate_emi_ok p a n ha hn, ?_, ?_⟩
  · rw [rowsVal_get_succ]
    simp only [rowAt]
    exact ppAt_add_ipAt p a n (i + 1) ha hn (by omega)
  · rw [rowsVal_get_succ, rowsVal_get_succ]
    simp only [rowAt]
    by_cases h0 : i = 0
    · subst h0
      rw [if_pos rfl]
      have hstep := endAt_step p a n 0 (by omega)
      simpa [bal] using hstep
    · rw [if_neg h0]
      obtain ⟨j, rfl⟩ : ∃ j, i = j + 1 := ⟨i - 1, by omega⟩
      have hstep := endAt_step p a n (j + 1) (by omega)
      have hprev : endAt a (emiVal p a n) p n (j + 1 - 1 + 1)
          = bal a (emiVal p a n) p (j + 1) := by
        have h11 : j + 1 - 1 + 1 = j + 1 := by omega
        rw [h11, endAt, if_neg (by omega)]
      rw [hprev]
      exact hstep

theorem claim_c5_witness :
    (0 : ℚ) < 500000 ∧ (0 : ℚ) ≤ 8 ∧ 1 ≤ 120 ∧
      0 < (rowsVal 500000 8 120).length ∧
      (calculate_emi 500000 8 120
          = Except.ok (EmiReturn.four (emiVal 500000 8 120) (tiVal 500000 8 120)
              (tpVal 500000 8 120) (dfVal 500000 8 120))
        ∧ ((rowsVal 500000 8 120).get
              ⟨0, by rw [rowsVal_length]; norm_num⟩).principalPaid
            + ((rowsVal 500000 8 120).get
              ⟨0, by rw [rowsVal_length]; norm_num⟩).interestPaid
            = emiVal 500000 8 120
        ∧ ((rowsVal 500000 8 120).get
              ⟨0, by rw [rowsVal_length]; norm_num⟩).endingBalance
            = (if (0 : ℕ) = 0 then (500000 : ℚ)
               else ((rowsVal 500000 8 120).get
                  ⟨0 - 1, lt_of_le_of_lt (Nat.pred_le 0)
                    (by rw [rowsVal_length]; norm_num)⟩).endingBalance)
              - ((rowsVal 500000 8 120).get
                ⟨0, by rw [rowsVal_length]; norm_num⟩).principalPaid) :=
  ⟨by norm_num, by norm_num, by norm_num, by rw [rowsVal_length]; norm_num,
    claim_c5_record_invariants 500000 8 120 0 (by norm_num) (by norm_num)
      (by norm_num) (by rw [rowsVal_length]; norm_num)⟩

/-- C6: for every valid input the schedule has exactly termPeriods records
and the endingBalance column is monotonically non-increasing. -/
theorem claim_c6_length_monotone (p a : ℚ) (n i : ℕ)
    (hp : 0 < p) (ha : 0 ≤ a) (hn : 1 ≤ n)
    (hi : i + 1 < (rowsVal p a n).length) :
    calculate_emi p a n
      = Except.ok (EmiReturn.four (emiVal p a n) (tiVal p a n) (tpVal p a n)
          (dfVal p a n))
      ∧ (rowsVal p a n).length = n
      ∧ ((rowsVal p a n).get ⟨i + 1, hi⟩).endingBalance
          ≤ ((rowsVal p a n).get ⟨i, Nat.lt_of_succ_lt hi⟩).endingBalance := by
  have hin : i + 1 < n := by
    have := rowsVal_length p a n
    omega
  refine ⟨calculate_emi_ok p a n ha hn, rowsVal_length p a n, ?_⟩
  rw [rowsVal_get_succ, rowsVal_get_succ]
  simp only [rowAt]
  have hE1 : endAt a (emiVal p a n) p n (i + 1)
      = bal a (emiVal p a n) p (i + 1) := by
    rw [endAt, if_neg (by omega)]
  rw [hE1]
  by_cases h2 : i + 1 + 1 = n
  · rw [endAt, if_pos h2]
    exact balE_nonneg p a n (i + 1) (le_of_lt hp) ha hn (by omega)
  · rw [endAt, if_neg h2]
    exact balE_antitone p a n (i + 1) (le_of_lt hp) ha hn

theorem claim_c6_witness :
    (0 : ℚ) < 500000 ∧ (0 : ℚ) ≤ 8 ∧ 1 ≤ 120 ∧
      0 + 1 < (rowsVal 500000 8 120).length ∧
      (calculate_emi 500000 8 120
          = Except.ok (EmiReturn.four (emiVal 500000 8 120) (tiVal 500000 8 120)
              (tpVal 500000 8 120) (dfVal 500000 8 120))
        ∧ (rowsVal 500000 8 120).length = 120
        ∧ ((rowsVal 500000 8 120).get
              ⟨0 + 1, by rw [rowsVal_length]; norm_num⟩).endingBalance
            ≤ ((rowsVal 500000 8 120).get
              ⟨0, Nat.lt_of_succ_lt (by rw [rowsVal_length]; norm_num)⟩).endingBalance) :=
  ⟨by norm_num, by norm_num, by norm_num, by rw [rowsVal_length]; norm_num,
    claim_c6_length_monotone 500000 8 120 0 (by norm_num) (by norm_num)
      (by norm_num) (by rw [rowsVal_length]; norm_num)⟩

/-- C7: for every valid input, totalPayable equals principal plus
totalInterest exactly (by construction), and totalInterest equals the sum
of interestPaid over all schedule records. -/
theorem claim_c7_totals (p a : ℚ) (n : ℕ) (_hp : 0 < p) (ha : 0 ≤ a)
    (hn : 1 ≤ n) :
    calculate_emi p a n
      = Except.ok (EmiReturn.four (emiVal p a n) (tiVal p a n) (tpVal p a n)
          (dfVal p a n))
      ∧ tpVal p a n = p + tiVal p a n
      ∧ tiVal p a n = ((rowsVal p a n).map Row.interestPaid).sum := by
  refine ⟨calculate_emi_ok p a n ha hn, rfl, ?_⟩
  rw [rowsVal_map_ip, sum_ip_total p a n ha hn, tiVal_eq p a n hn]

theorem claim_c7_witness :
    (0 : ℚ) < 500000 ∧ (0 : ℚ) ≤ 8 ∧ 1 ≤ 120 ∧
      (calculate_emi 500000 8 120
          = Except.ok (EmiReturn.four (emiVal 500000 8 120) (tiVal 500000 8 120)
              (tpVal 500000 8 120) (dfVal 500000 8 120))
        ∧ tpVal 500000 8 120 = 500000 + tiVal 500000 8 120
        ∧ tiVal 500000 8 120
            = ((rowsVal 500000 8 120).map Row.interestPaid).sum) :=
  ⟨by norm_num, by norm_num, by norm_num,
    claim_c7_totals 500000 8 120 (by norm_num) (by norm_num) (by norm_num)⟩

theorem rowsVal_map_get (p a : ℚ) (n : ℕ) (f : Row → ℚ) (k : ℕ)
    (hb : k < ((rowsVal p a n).map f).length) :
    ((rowsVal p a n).map f).get ⟨k, hb⟩
      = f (rowAt a (emiVal p a n) p n (k + 1)) := by
  have hbr : k < (rowsVal p a n).length := by
    rw [List.length_map] at hb
    exact hb
  have hg := rowsVal_get_succ p a n k hbr
  rw [List.get_eq_getElem] at hg
  rw [List.get_eq_getElem, List.getElem_map, hg]

/-- C8: the `Cumulative Interest`, `Cumulative Principal` and `Total Paid`
columns are the prefix sums of interestPaid, principalPaid and their sum in
period order; each series is monotonically non-decreasing; the cumulative
principal series ends at exactly the principal and the cumulative interest
series ends at exactly totalInterest. -/
theorem claim_c8_cumulative_series (p a : ℚ) (n i j : ℕ)
    (hp : 0 < p) (ha : 0 ≤ a) (hn : 1 ≤ n) (hi : i < n) (hj : j + 1 < n) :
    calculate_emi p a n
      = Except.ok (EmiReturn.four (emiVal p a n) (tiVal p a n) (tpVal p a n)
          (dfVal p a n))
      ∧ (dfVal p a n).cumInterest
          = cumsum ((rowsVal p a n).map Row.interestPaid)
      ∧ (dfVal p a n).cumPrincipal
          = cumsum ((rowsVal p a n).map Row.principalPaid)
      ∧ (dfVal p a n).totalPaid
          = cumsum ((rowsVal p a n).map
              (fun row => Row.interestPaid row + Row.principalPaid row))
      ∧ (dfVal p a n).cumInterest.get
            ⟨i, by rw [dfVal_ci_length]; exact hi⟩
          = (((rowsVal p a n).map Row.interestPaid).take (i + 1)).sum
      ∧ (dfVal p a n).cumPrincipal.get
            ⟨i, by rw [dfVal_cp_length]; exact hi⟩
          = (((rowsVal p a n).map Row.principalPaid).take (i + 1)).sum
      ∧ (dfVal p a n).totalPaid.get
            ⟨i, by rw [dfVal_tp_length]; exact hi⟩
          = (((rowsVal p a n).map
              (fun row => Row.interestPaid row + Row.principalPaid row)).take
                (i + 1)).sum
      ∧ (dfVal p a n).cumInterest.get
            ⟨j, by rw [dfVal_ci_length]; omega⟩
          ≤ (dfVal p a n).cumInterest.get
            ⟨j + 1, by rw [dfVal_ci_length]; exact hj⟩
      ∧ (dfVal p a n).cumPrincipal.get
            ⟨j, by rw [dfVal_cp_length]; omega⟩
          ≤ (dfVal p a n).cumPrincipal.get
            ⟨j + 1, by rw [dfVal_cp_length]; exact hj⟩
      ∧ (dfVal p a n).totalPaid.get
            ⟨j, by rw [dfVal_tp_length]; omega⟩
          ≤ (dfVal p a n).totalPaid.get
            ⟨j + 1, by rw [dfVal_tp_length]; exact hj⟩
      ∧ (dfVal p a n).cumInterest.getLast? = some (tiVal p a n)
      ∧ (dfVal p a n).cumPrincipal.getLast? = some p := by
  have hpn : 0 ≤ p := le_of_lt hp
  have hlenI : ((rowsVal p a n).map Row.interestPaid).length = n := by
    rw [List.length_map, rowsVal_length]
  have hlenP : ((rowsVal p a n).map Row.principalPaid).length = n := by
    rw [List.length_map, rowsVal_length]
  have hlenT : ((rowsVal p a n).map
      (fun row => Row.interestPaid row + Row.principalPaid row)).length = n := by
    rw [List.length_map, rowsVal_length]
  refine ⟨calculate_emi_ok p a n ha hn, rfl, rfl, dfVal_totalPaid p a n,
    dfVal_ci_get p a n i _, dfVal_cp_get p a n i _, dfVal_tp_get p a n i _,
    ?_, ?_, ?_, ?_, ?_⟩
  · rw [dfVal_ci_get, dfVal_ci_get]
    have hb : j + 1 < ((rowsVal p a n).map Row.interestPaid).length := by omega
    rw [take_succ_sum _ (j + 1) hb, rowsVal_map_get]
    simp only [rowAt]
    have hnn := ipAt_nonneg p a n (j + 1 + 1) hpn ha hn (by omega)
    linarith
  · rw [dfVal_cp_get, dfVal_cp_get]
    have hb : j + 1 < ((rowsVal p a n).map Row.principalPaid).length := by omega
    rw [take_succ_sum _ (j + 1) hb, rowsVal_map_get]
    simp only [rowAt]
    have hnn := ppAt_nonneg p a n (j + 1 + 1) hpn ha hn (by omega) (by omega)
    linarith
  · rw [dfVal_tp_get, dfVal_tp_get]
    have hb : j + 1 < ((rowsVal p a n).map
        (fun row => Row.interestPaid row + Row.principalPaid row)).length := by
      omega
    rw [take_succ_sum _ (j + 1) hb, rowsVal_map_get]
    simp only [rowAt]
    have hnn1 := ipAt_nonneg p a n (j + 1 + 1) hpn ha hn (by omega)
    have hnn2 := ppAt_nonneg p a n (j + 1 + 1) hpn ha hn (by omega) (by omega)
    linarith
  · have hne : (rowsVal p a n).map Row.interestPaid ≠ [] := by
      intro hcon
      have hc := congrArg List.length hcon
      rw [hlenI] at hc
      simp at hc
      omega
    show (cumsum ((rowsVal p a n).map Row.interestPaid)).getLast?
      = some (tiVal p a n)
    rw [cumsum_getLast_of_ne_nil _ hne, rowsVal_map_ip,
      sum_ip_total p a n ha hn, tiVal_eq p a n hn]
  · have hne : (rowsVal p a n).map Row.principalPaid ≠ [] := by
      intro hcon
      have hc := congrArg List.length hcon
      rw [hlenP] at hc
      simp at hc
      omega
    show (cumsum ((rowsVal p a n).map Row.principalPaid)).getLast? = some p
    rw [cumsum_getLast_of_ne_nil _ hne, rowsVal_map_pp,
      sum_pp_total p a n hn]

theorem claim_c8_witness :
    (0 : ℚ) < 500000 ∧ (0 : ℚ) ≤ 8 ∧ 1 ≤ 120 ∧ 0 < 120 ∧ 0 + 1 < 120 ∧
      (calculate_emi 500000 8 120
          = Except.ok (EmiReturn.four (emiVal 500000 8 120) (tiVal 500000 8 120)
              (tpVal 500000 8 120) (dfVal 500000 8 120))
        ∧ (dfVal 500000 8 120).cumInterest
            = cumsum ((rowsVal 500000 8 120).map Row.interestPaid)
        ∧ (dfVal 500000 8 120).cumPrincipal
            = cumsum ((rowsVal 500000 8 120).map Row.principalPaid)
        ∧ (dfVal 500000 8 120).totalPaid
            = cumsum ((rowsVal 500000 8 120).map
                (fun row => Row.interestPaid row + Row.principalPaid row))
        ∧ (dfVal 500000 8 120).cumInterest.get
              ⟨0, by rw [dfVal_ci_length]; norm_num⟩
            = (((rowsVal 500000 8 120).map Row.interestPaid).take (0 + 1)).sum
        ∧ (dfVal 500000 8 120).cumPrincipal.get
              ⟨0, by rw [dfVal_cp_length]; norm_num⟩
            = (((rowsVal 500000 8 120).map Row.principalPaid).take (0 + 1)).sum
        ∧ (dfVal 500000 8 120).totalPaid.get
              ⟨0, by rw [dfVal_tp_length]; norm_num⟩
            = (((rowsVal 500000 8 120).map
                (fun row => Row.interestPaid row + Row.principalPaid row)).take
                  (0 + 1)).sum
        ∧ (dfVal 500000 8 120).cumInterest.get
              ⟨0, by rw [dfVal_ci_length]; norm_num⟩
            ≤ (dfVal 500000 8 120).cumInterest.get
              ⟨0 + 1, by rw [dfVal_ci_length]; norm_num⟩
        ∧ (dfVal 500000 8 120).cumPrincipal.get
              ⟨0, by rw [dfVal_cp_length]; norm_num⟩
            ≤ (dfVal 500000 8 120).cumPrincipal.get
              ⟨0 + 1, by rw [dfVal_cp_length]; norm_num⟩
        ∧ (dfVal 500000 8 120).totalPaid.get
              ⟨0, by rw [dfVal_tp_length]; norm_num⟩
            ≤ (dfVal 500000 8 120).totalPaid.get
              ⟨0 + 1, by rw [dfVal_tp_length]; norm_num⟩
        ∧ (dfVal 500000 8 120).cumInterest.getLast? = some (tiVal 500000 8 120)
        ∧ (dfVal 500000 8 120).cumPrincipal.getLast? = some 500000) :=
  ⟨by norm_num, by norm_num, by norm_num, by norm_num, by norm_num,
    claim_c8_cumulative_series 500000 8 120 0 0 (by norm_num) (by norm_num)
      (by norm_num) (by norm_num) (by norm_num)⟩

theorem claim_c10_witness :
    (5 : ℚ) ≠ 0 ∧ 1 ≤ 1 ∧
      calculate_emi 100 0 1
        = Except.ok (EmiReturn.four 100 0 100
            (DataFrame.mk [Row.mk 1 100 100 100 0 0] [0] [100] [100])) ∧
      (calculate_emi 7 5 0 = Except.ok (EmiReturn.three 0 0 (mkDataFrame []))
        ∧ isFourTuple (EmiReturn.four 100 0 100
            (DataFrame.mk [Row.mk 1 100 100 100 0 0] [0] [100] [100])) = true) :=
  ⟨by norm_num, by norm_num,
    by norm_num [calculate_emi, pyDiv, mainResult, mkDataFrame, schedGo,
      cumsum, cumsumGo],
    claim_c10_three_tuple 7 5 100 0 1
      (EmiReturn.four 100 0 100
        (DataFrame.mk [Row.mk 1 100 100 100 0 0] [0] [100] [100]))
      (by norm_num) (by norm_num)
      (by norm_num [calculate_emi, pyDiv, mainResult, mkDataFrame, schedGo,
        cumsum, cumsumGo])⟩
